import Mathlib

/-!
Shallow embedding of `src/main.py` (Hailledev/compressed_image): the adaptive
JPEG compression engine `compress_image` (lines 22-89) and the HTTP upload
boundary `upload_image` (lines 93-144).

The PIL/Pillow primitives the source calls (`Image.open`, `Image.convert`,
`Image.thumbnail`, `Image.resize`, `Image.save`) are modelled as follows:
pixel buffers are opaque `Nat` content identifiers transformed by an abstract
`Codec`; the size computation performed by `Image.thumbnail` (Pillow >= 9.1,
`preserve_aspect_ratio` / `round_aspect`) is reproduced exactly in integer
arithmetic (Python float expressions are modelled by their exact rational
value; every comparison reached by the concrete theorems below is exact in
binary floating point as well, far from any rounding tie); `img.save` is an
abstract fallible encoder returning the encoded byte buffer, of which only the
length (`output.tell()`) feeds back into the control flow.  Machine integers
are modelled as `Int`/`Nat`; for the nonnegative values arising in every
theorem below, all integer-division conventions (Python `int(...)` truncation
of the exact value, Lean `Int` division, `Nat` division) coincide.
-/

/-- The encoded output written by `img.save(output, format='JPEG', ...)`:
`size` is `output.tell()` after the write, `data` an opaque identifier of the
byte content. -/
structure Jpeg where
  size : Nat
  data : Nat
deriving DecidableEq

/-- One executed `img.save(..., quality=q)`: the JPEG quality passed and the
pixel-buffer dimensions at that moment.  Ghost instrumentation: the source
does not record this; it is threaded through the model only so that trace
properties (which encodes happened, at which quality) can be stated. -/
structure EncodeEvent where
  quality : Int
  width : Nat
  height : Nat
deriving DecidableEq

/-- The fixed codec implementation (PIL) the engine calls: `convertRGB` models
`img.convert('RGB')` (main.py line 44), `resize` models the resampling
performed inside `img.thumbnail` (lines 58 and 75), and `encode` models
`img.save(output, format='JPEG', quality=q, optimize=True)` (`none` = the
codec raises, i.e. an encode failure).  Content identifiers are opaque: the
engine never inspects them, it only hands them back to the codec. -/
structure Codec where
  convertRGB : Nat → Nat
  resize : Nat → Nat × Nat → Nat
  encode : Nat → Nat × Nat → Int → Option Jpeg

/-- Result of a successful `Image.open` (main.py line 40): pixel dimensions,
whether the mode is already `'RGB'`, and the opaque pixel content. -/
structure PILImage where
  width : Nat
  height : Nat
  mode_rgb : Bool
  content : Nat
deriving DecidableEq

/-- An uploaded file: its name (as the list of its characters), the length of
its raw bytes (`len(content)`, line 39), and the result of attempting
`Image.open` on those bytes (`none`: not a decodable raster image, Python
raises). -/
structure RawFile where
  filename : List Char
  content_bytes_len : Nat
  decoded : Option PILImage

/-- Pillow `round_aspect(y * aspect, key=lambda n: abs(aspect - n / y))` with
`aspect = w / h`, computed exactly: the candidates `min(floor(number),
ceil(number), key=key)` are `⌊y*w/h⌋` and `⌈y*w/h⌉`; the key comparison
`|w/h - n/y| ≤ |w/h - m/y|` has the common positive factor `h*y` cleared to
`|w*y - n*h| ≤ |w*y - m*h|`, and Python `min` keeps the first argument (the
floor) on ties; finally `max(..., 1)`. -/
def round_aspect_x (w h y : Nat) : Nat :=
  let f := y * w / h
  let c := (y * w + h - 1) / h
  max (if Nat.dist (w * y) (f * h) ≤ Nat.dist (w * y) (c * h) then f else c) 1

/-- Pillow `round_aspect(x / aspect, key=lambda n: 0 if n == 0 else
abs(aspect - x / n))` with `aspect = w / h`, computed exactly: candidates are
`⌊x*h/w⌋` and `⌈x*h/w⌉`; a candidate `0` has key `0` and therefore always
wins (Python `min` keeps the floor, which is the `0`, on ties); for positive
candidates `n`, `m` the key comparison `|w/h - x/n| ≤ |w/h - x/m|` has the
positive factor `h*n*m` cleared to `|w*n - x*h|*m ≤ |w*m - x*h|*n`; finally
`max(..., 1)`. -/
def round_aspect_y (w h x : Nat) : Nat :=
  let f := x * h / w
  let c := (x * h + w - 1) / w
  max (if f = 0 then f
       else if Nat.dist (w * f) (x * h) * c ≤ Nat.dist (w * c) (x * h) * f then f
       else c) 1

/-- The size chosen by Pillow `Image.thumbnail` (`preserve_aspect_ratio`):
the buffer size `(w, h)` is kept unchanged when the requested box already
contains it (`x >= self.width and y >= self.height`); `none` models the
`ZeroDivisionError` Python raises at `x / y` when the box height is `0`;
otherwise the float comparison `x / y >= aspect` is the exact rational
comparison `bw/bh ≥ w/h`, i.e. `bh*w ≤ bw*h`, and the corresponding axis is
re-derived by `round_aspect`. -/
def thumbnailSize (w h bw bh : Nat) : Option (Nat × Nat) :=
  if w ≤ bw ∧ h ≤ bh then some (w, h)
  else if bh = 0 then none
  else if bh * w ≤ bw * h then some (round_aspect_x w h bh, bh)
  else some (bw, round_aspect_y w h bw)

/-- Step 2 of the engine (main.py lines 47-55): the requested bounding box.
`if width >= height: new_width = max_dimension; new_height =
int((max_dimension / width) * height)` and symmetrically otherwise; the
Python float expression `int((max_dimension / width) * height)` is modelled
by the exact integer division `max_dimension * height / width`. -/
def target_dimensions (max_dimension : Int) (w h : Nat) : Int × Int :=
  if h ≤ w then (max_dimension, max_dimension * (h : Int) / (w : Int))
  else (max_dimension * (w : Int) / (h : Int), max_dimension)

/-- Failure modes of one engine invocation: `Image.open` fails
(`decodeError`), Pillow's `thumbnail` divides by a zero box height
(`zeroDivision`, see `thumbnailSize`), or `img.save` fails (`encodeError`).
Any of these aborts the whole call — the source has no handler. -/
inductive EngineError where
  | decodeError
  | zeroDivision
  | encodeError
deriving DecidableEq

/-- The value returned at main.py line 89:
`return output, img.size, original_size, compressed_size` — the encoded
buffer, the pixel buffer's current dimensions, and the two byte sizes.
(Note: the source returns these four components only; the quality is not
among them.) -/
structure CompressionResult where
  output : Jpeg
  finalW : Nat
  finalH : Nat
  original_size : Nat
  compressed_size : Nat
deriving DecidableEq

/-- Ghost instrumentation of one engine run (not returned by the source;
carried alongside the real result so that per-step properties can be
stated): the Step-2 box, the dimensions after the Step-3 thumbnail, the
Step-4 encodes (initial encode plus the reduction loop's re-encodes), the
value of the `quality` local and of `output.tell()` when the Step-4 loop
exits, `output.tell()` just before the Step-6 test, and the optional Step-5 /
Step-6 encodes. -/
structure RunInfo where
  targetBox : Int × Int
  dims3 : Nat × Nat
  step4 : List EncodeEvent
  step4Quality : Int
  step4Size : Nat
  preBoostSize : Nat
  step5 : Option EncodeEvent
  step6 : Option EncodeEvent
deriving DecidableEq

/-- Step 4's reduction loop (main.py lines 66-70):
`while output.tell() > 150 * 1024 and quality > min_quality: quality -= 5;
...; img.save(output, ..., quality=quality, ...)`.  The loop is written with
an explicit fuel so that it is structurally recursive and kernel-evaluable;
`compress_image` passes `(max_quality - min_quality).toNat + 1` units, which
`qualityLoop_exits` below proves is always enough for the guard, never the
fuel, to end the loop — so the cutoff branch is semantically unreachable. -/
def qualityLoop (codec : Codec) (content : Nat) (dims : Nat × Nat)
    (min_quality : Int) :
    Nat → Int → Jpeg → List EncodeEvent →
    Except EngineError (Int × Jpeg × List EncodeEvent)
  | 0, quality, out, trace => .ok (quality, out, trace)
  | fuel + 1, quality, out, trace =>
    if 150 * 1024 < out.size ∧ min_quality < quality then
      match codec.encode content dims (quality - 5) with
      | none => .error .encodeError
      | some out2 =>
        qualityLoop codec content dims min_quality fuel (quality - 5) out2
          (trace ++ [⟨quality - 5, dims.1, dims.2⟩])
    else .ok (quality, out, trace)

/-- Step 5, the dimension-shrink fallback (main.py lines 73-78): if
`output.tell() > 150 * 1024` still, compute `new_dimensions =
tuple(int(dim * 0.9) for dim in max_dimensions)` — note: from the Step-2 box
`max_dimensions`, truncating (`int(dim * 0.9)` = `dim * 9 / 10` exactly, for
every nonnegative `dim`, since `dim * 0.9` is never within float error of an
integer from above) — then `img.thumbnail(new_dimensions)` on the current
buffer and one `img.save(..., quality=min_quality)`.  The local `quality`
variable is NOT assigned here (the source passes `min_quality` directly to
`save`).  Returns (content, dims, output, optional ghost event). -/
def step5run (codec : Codec) (max_dimensions : Int × Int) (content : Nat)
    (dims : Nat × Nat) (min_quality : Int) (out : Jpeg) :
    Except EngineError (Nat × (Nat × Nat) × Jpeg × Option EncodeEvent) :=
  if 150 * 1024 < out.size then
    let box2 := (max_dimensions.1 * 9 / 10, max_dimensions.2 * 9 / 10)
    match thumbnailSize dims.1 dims.2 box2.1.toNat box2.2.toNat with
    | none => .error .zeroDivision
    | some d2 =>
      let c2 := if d2 = dims then content else codec.resize content d2
      match codec.encode c2 d2 min_quality with
      | none => .error .encodeError
      | some out2 => .ok (c2, d2, out2, some ⟨min_quality, d2.1, d2.2⟩)
  else .ok (content, dims, out, none)

/-- Step 6, the quality-boost fallback (main.py lines 81-85): if
`output.tell() < target_size_kb * 1024 and quality < max_quality` then
`quality = min(quality + 10, max_quality)` and one more `img.save`.  `quality`
here is whatever the Step-4 loop left in the local variable (Step 5 does not
update it). -/
def step6run (codec : Codec) (content : Nat) (dims : Nat × Nat)
    (target_size_kb max_quality quality : Int) (out : Jpeg) :
    Except EngineError (Int × Jpeg × Option EncodeEvent) :=
  if (out.size : Int) < target_size_kb * 1024 ∧ quality < max_quality then
    let q2 := min (quality + 10) max_quality
    match codec.encode content dims q2 with
    | none => .error .encodeError
    | some out2 => .ok (q2, out2, some ⟨q2, dims.1, dims.2⟩)
  else .ok (quality, out, none)

/-- Steps 4-7 of the engine, after decode/normalize/downscale: the initial
encode at `max_quality` (main.py lines 62-63), the reduction loop, the two
fallbacks, and the assembly of the returned tuple (lines 87-89:
`compressed_size = output.tell(); return output, img.size, original_size,
compressed_size`). -/
def afterThumb (codec : Codec) (max_dimensions : Int × Int) (content : Nat)
    (dims : Nat × Nat) (target_size_kb min_quality max_quality : Int)
    (original_size : Nat) :
    Except EngineError (CompressionResult × RunInfo) :=
  match codec.encode content dims max_quality with
  | none => .error .encodeError
  | some out0 =>
    match qualityLoop codec content dims min_quality
        ((max_quality - min_quality).toNat + 1) max_quality out0
        [⟨max_quality, dims.1, dims.2⟩] with
    | .error e => .error e
    | .ok (q1, out1, tr1) =>
      match step5run codec max_dimensions content dims min_quality out1 with
      | .error e => .error e
      | .ok (c5, d5, out5, ev5) =>
        match step6run codec c5 d5 target_size_kb max_quality q1 out5 with
        | .error e => .error e
        | .ok (_q6, out6, ev6) =>
          .ok (⟨out6, d5.1, d5.2, original_size, out6.size⟩,
               ⟨max_dimensions, dims, tr1, q1, out1.size, out5.size, ev5, ev6⟩)

/-- Steps 1-3 of the engine (main.py lines 38-58): take the decoded image,
convert to RGB if needed (line 43-44), compute the Step-2 box, and
`img.thumbnail(max_dimensions, Image.Resampling.LANCZOS)` (line 58) — the
content is resampled only when the chosen size differs from the current one,
exactly as `Image.thumbnail` does. -/
def afterDecode (codec : Codec) (img : PILImage)
    (max_dimension target_size_kb min_quality max_quality : Int)
    (original_size : Nat) :
    Except EngineError (CompressionResult × RunInfo) :=
  let c0 := if img.mode_rgb then img.content else codec.convertRGB img.content
  let md := target_dimensions max_dimension img.width img.height
  match thumbnailSize img.width img.height md.1.toNat md.2.toNat with
  | none => .error .zeroDivision
  | some d1 =>
    afterThumb codec md
      (if d1 = (img.width, img.height) then c0 else codec.resize c0 d1)
      d1 target_size_kb min_quality max_quality original_size

/-- The engine `compress_image(input_image, max_dimension=500,
target_size_kb=100, min_quality=75, max_quality=90)` (main.py lines 22-89).
Beyond the source's returned 4-tuple (`CompressionResult`) the model also
yields the ghost `RunInfo` trace.  Note that the source performs no
validation whatsoever of its parameters. -/
def compress_image (codec : Codec) (input_image : RawFile)
    (max_dimension target_size_kb min_quality max_quality : Int) :
    Except EngineError (CompressionResult × RunInfo) :=
  match input_image.decoded with
  | none => .error .decodeError
  | some img =>
    afterDecode codec img max_dimension target_size_kb min_quality
      max_quality input_image.content_bytes_len

/-- The boundary's file-format test (main.py line 99):
`file.filename.lower().endswith(('.png', '.jpg', '.jpeg'))`. -/
def allowed_extension (filename : List Char) : Bool :=
  let l := filename.map Char.toLower
  ".png".data.isSuffixOf l || ".jpg".data.isSuffixOf l ||
    ".jpeg".data.isSuffixOf l

/-- Failure modes of `upload_image`: the two HTTP 400 rejections (lines
99-104) and a propagated engine exception. -/
inductive UploadError where
  | unsupportedFormat
  | invalidParams
  | engineFailure (e : EngineError)
deriving DecidableEq

/-- The MongoDB metadata record (main.py lines 125-133).  The sizes are kept
in raw bytes; the source stores `round(original_size / 1024, 2)` — a display
formatting of the same quantity, not modelled (floating-point formatting). -/
structure DbRecord where
  image_id : String
  filename : List Char
  original_size_bytes : Nat
  compressed_size_bytes : Nat
  new_dimensions : Nat × Nat
  temp_file_path : String

/-- What the collaborators persisted during one upload: blob files written to
the temp directory (line 120-121) and metadata records inserted (line 134). -/
structure UploadEffects where
  blobWrites : List (String × Jpeg)
  dbInserts : List DbRecord

/-- The `/upload` endpoint (main.py lines 93-144): extension check, parameter
check (`max_dimension <= 0 or target_size_kb <= 0`), engine invocation with
the hardcoded `min_quality=75, max_quality=90`, then — only after the engine
returned — the blob write and the metadata insert.  `image_id` (the
collaborator-generated uuid) is a parameter of the model.  An engine
exception propagates before any write happens, so the error branches carry no
effects. -/
def upload_image (codec : Codec) (file : RawFile)
    (max_dimension target_size_kb : Int) (image_id : String) :
    Except UploadError (DbRecord × UploadEffects) :=
  if ¬ allowed_extension file.filename then .error .unsupportedFormat
  else if max_dimension ≤ 0 ∨ target_size_kb ≤ 0 then .error .invalidParams
  else
    match compress_image codec file max_dimension target_size_kb 75 90 with
    | .error e => .error (.engineFailure e)
    | .ok (res, _) =>
      let path := "temp_images/" ++ image_id ++ ".jpg"
      let record : DbRecord :=
        ⟨image_id, file.filename, res.original_size, res.compressed_size,
         (res.finalW, res.finalH), path⟩
      .ok (record, ⟨[(path, res.output)], [record]⟩)

/-- The persisted effects of an upload outcome: the error branches of
`upload_image` abort before any collaborator acts, so they carry no writes. -/
def uploadEffects (r : Except UploadError (DbRecord × UploadEffects)) :
    UploadEffects :=
  match r with
  | .ok (_, eff) => eff
  | .error _ => ⟨[], []⟩

/-- The quality passed to the last `img.save` executed in a run (ghost
reading of the trace): the Step-6 encode if it ran, else the Step-5 encode if
it ran, else the Step-4 loop's final quality (which is the quality of the
last Step-4 encode, the initial one when the loop body never ran). -/
def finalEncodeQuality (info : RunInfo) : Int :=
  match info.step6 with
  | some e => e.quality
  | none =>
    match info.step5 with
    | some e => e.quality
    | none => info.step4Quality

/-- All encodes of a run, in execution order (ghost reading of the trace). -/
def runEncodes (info : RunInfo) : List EncodeEvent :=
  info.step4 ++ info.step5.toList ++ info.step6.toList

/-- Concrete codec for counterexamples: every encode yields a 200000-byte
output (above the 150 KiB = 153600-byte ceiling), regardless of content,
dimensions and quality; resampling keeps the content identifier. -/
def codecBig : Codec :=
  ⟨fun c => c, fun c _ => c, fun _ _ _ => some ⟨200000, 0⟩⟩

/-- Concrete codec for witnesses: every encode yields a 50000-byte output
(below both the 150 KiB ceiling and the default 100 KiB target). -/
def codecSmall : Codec :=
  ⟨fun c => c, fun c _ => c, fun _ _ _ => some ⟨50000, 0⟩⟩

/-- Concrete codec whose output size depends on the pixel content: resampling
bumps the content identifier, content `9` (the twice-resampled buffer below)
encodes to 50000 bytes, everything else to 200000 bytes. -/
def codecShrink : Codec :=
  ⟨fun c => c, fun c _ => c + 1,
   fun c _ _ => some ⟨if c = 9 then 50000 else 200000, 0⟩⟩

/-- A decodable 2000x1000 landscape RGB image of 5000000 raw bytes. -/
def imgWide : RawFile := ⟨"photo.jpg".data, 5000000, some ⟨2000, 1000, true, 7⟩⟩

/-- A decodable 300x200 image of 100000 raw bytes (smaller than the default
`max_dimension`). -/
def imgSmall : RawFile := ⟨"photo.jpg".data, 100000, some ⟨300, 200, true, 7⟩⟩

/-- A decodable 1000x1000 square RGB image. -/
def imgSquare : RawFile := ⟨"photo.jpg".data, 900000, some ⟨1000, 1000, true, 7⟩⟩

/-- A file of 1234 random bytes that `Image.open` cannot decode. -/
def imgBad : RawFile := ⟨"photo.png".data, 1234, none⟩

/-! ## Inversion of a successful engine run -/

/-- Successful runs of `compress_image` decompose into the five stages: the
decode, the Step-2 box, the Step-3 thumbnail, the Step-4 initial encode and
loop, and the two fallbacks, with the ghost `RunInfo` recording exactly the
intermediate values and the returned 4-tuple assembled from the final
buffer. -/
theorem compress_image_ok_inv (codec : Codec) (input : RawFile)
    (m t mq Mq : Int) (res : CompressionResult) (info : RunInfo)
    (hok : compress_image codec input m t mq Mq = .ok (res, info)) :
    ∃ img c1 out0 out1 c5 d5 out5 q6 out6,
      input.decoded = some img ∧
      info.targetBox = target_dimensions m img.width img.height ∧
      thumbnailSize img.width img.height info.targetBox.1.toNat
        info.targetBox.2.toNat = some info.dims3 ∧
      codec.encode c1 info.dims3 Mq = some out0 ∧
      qualityLoop codec c1 info.dims3 mq ((Mq - mq).toNat + 1) Mq out0
        [⟨Mq, info.dims3.1, info.dims3.2⟩]
        = .ok (info.step4Quality, out1, info.step4) ∧
      info.step4Size = out1.size ∧
      step5run codec info.targetBox c1 info.dims3 mq out1
        = .ok (c5, d5, out5, info.step5) ∧
      info.preBoostSize = out5.size ∧
      step6run codec c5 d5 t Mq info.step4Quality out5
        = .ok (q6, out6, info.step6) ∧
      res = ⟨out6, d5.1, d5.2, input.content_bytes_len, out6.size⟩ := by
  unfold compress_image at hok
  split at hok
  · exact Except.noConfusion hok
  next img heq =>
    simp only [afterDecode] at hok
    split at hok
    · exact Except.noConfusion hok
    next d1 hthumb =>
      simp only [afterThumb] at hok
      split at hok
      · exact Except.noConfusion hok
      next out0 henc0 =>
        split at hok
        · exact Except.noConfusion hok
        next q1 out1 tr1 hloop =>
          split at hok
          · exact Except.noConfusion hok
          next c5 d5 out5 ev5 h5 =>
            split at hok
            · exact Except.noConfusion hok
            next q6 out6 ev6 h6 =>
              simp only [Except.ok.injEq, Prod.mk.injEq] at hok
              obtain ⟨hres, hinfo⟩ := hok
              subst hres; subst hinfo
              exact ⟨img, _, out0, out1, c5, d5, out5, q6, out6, heq, rfl,
                hthumb, henc0, hloop, rfl, h5, rfl, h6, rfl⟩

/-! ## Claims settled by concrete runs -/

/-- Claim C1, counterexample: for the 2000x1000 image under the default
configuration with a codec that always produces 200000-byte output, the
Step-5 fallback runs and the returned dimensions are (450, 225) — the longer
edge is 450, not `maxDimension = 500`, so the claimed property does not hold
on the Step-5 branch. -/
theorem C1_counterexample :
    (500 : Nat) < max 2000 1000 ∧
    imgWide.decoded = some ⟨2000, 1000, true, 7⟩ ∧
    (compress_image codecBig imgWide 500 100 75 90).toOption.map
      (fun p => (p.1.finalW, p.1.finalH, p.2.step5.isSome))
      = some (450, 225, true) ∧
    max 450 225 ≠ 500 :=
  ⟨by decide, rfl, rfl, by decide⟩

/-- Claim C2, counterexample: with `min_quality = 75 ≤ max_quality = 76` and
an always-oversized codec, the Step-4 loop encodes at quality 76 and then at
quality 71 — an encode attempt strictly below `min_quality`, contradicting
`qualityUsed ∈ [minQuality, maxQuality]` and "the loop never attempts a
quality below minQuality". -/
theorem C2_counterexample :
    (75 : Int) ≤ 76 ∧
    (compress_image codecBig imgWide 500 100 75 76).toOption.map
      (fun p => p.2.step4.map EncodeEvent.quality) = some [76, 71] ∧
    ¬ ((75 : Int) ≤ 71) :=
  ⟨by decide, rfl, by decide⟩

/-- Claim C3, counterexample: two successful calls that perform their final
encode at different qualities (80 vs 90) return byte-for-byte identical
values — the source's return (`output, img.size, original_size,
compressed_size`, main.py line 89) has four components and the quality used
is not among them, so "the quality actually used for the final encode is
part of the returned value" is false. -/
theorem C3_counterexample :
    (compress_image codecSmall imgWide 500 100 80 80).toOption.map Prod.fst
      = (compress_image codecSmall imgWide 500 100 90 90).toOption.map Prod.fst ∧
    (compress_image codecSmall imgWide 500 100 80 80).toOption.map
      (fun p => finalEncodeQuality p.2) = some 80 ∧
    (compress_image codecSmall imgWide 500 100 90 90).toOption.map
      (fun p => finalEncodeQuality p.2) = some 90 ∧
    (80 : Int) ≠ 90 :=
  ⟨rfl, rfl, rfl, by decide⟩

/-- Claim C4, counterexample: for a 1000x1000 image with `max_dimension =
501` (buffer (501, 501) after Step 3, equal to the Step-2 box) and an
always-oversized codec, Step 5 runs and produces dimensions (450, 450):
`int(501 * 0.9) = 450` truncates, whereas rounding 450.9 to the nearest
integer — what the claim specifies — would give 451. -/
theorem C4_counterexample :
    (compress_image codecBig imgSquare 501 100 75 90).toOption.map
      (fun p => (p.1.finalW, p.1.finalH, p.2.step5.isSome, p.2.dims3))
      = some (450, 450, true, (501, 501)) ∧
    (501 * 9 + 5) / 10 = (451 : Nat) ∧
    (450 : Nat) ≠ 451 :=
  ⟨rfl, by decide, by decide⟩

/-- Claim C5, counterexample: a 300x200 image with `max_dimension = 330`
(so `max(w, h) ≤ maxDimension` and Step 3 passes the buffer through
unchanged) and an always-oversized codec: Step 5 shrinks the Step-2 box
(330, 220) to (297, 198) and the thumbnail resizes the original-size buffer
down to (297, 198) ≠ (300, 200) — the final dimensions do not equal the
original dimensions on the Step-5 branch. -/
theorem C5_counterexample :
    max 300 200 ≤ (330 : Nat) ∧
    imgSmall.decoded = some ⟨300, 200, true, 7⟩ ∧
    (compress_image codecBig imgSmall 330 100 75 90).toOption.map
      (fun p => (p.1.finalW, p.1.finalH, p.2.step5.isSome))
      = some (297, 198, true) ∧
    ((297, 198) : Nat × Nat) ≠ (300, 200) :=
  ⟨by decide, rfl, rfl, by decide⟩

/-- Claim C6, counterexample: with `min_quality = 75`, `max_quality = 89`
(difference not divisible by 5) the Step-4 loop exits at quality 74, Step 5
runs (re-encoding at 75 without assigning the `quality` local), and Step 6
then boosts from the stale 74 to `min(74 + 10, 89) = 84` — not
`min(minQuality + 10, maxQuality) = 85` as the claim states, because Step 5
does not leave `quality = minQuality` in the variable Step 6 reads. -/
theorem C6_counterexample :
    (compress_image codecShrink imgWide 500 100 75 89).toOption.map
      (fun p => (p.2.step5.isSome, p.2.step6.map EncodeEvent.quality))
      = some (true, some 84) ∧
    min ((75 : Int) + 10) 89 = 85 ∧
    (84 : Int) ≠ 85 :=
  ⟨rfl, by decide, by decide⟩

/-- Claim C9, counterexample: `compress_image` performs no validation at
engine entry — invoked directly with `min_quality = 90 > max_quality = 75`
(an invalid configuration) it executes its compression logic (performs an
encode, at quality 75) and returns successfully instead of rejecting. -/
theorem C9_counterexample :
    (75 : Int) < 90 ∧
    (compress_image codecSmall imgWide 500 100 90 75).toOption.map
      (fun p => (p.2.step4.map EncodeEvent.quality, p.1.compressed_size))
      = some ([75], 50000) :=
  ⟨by decide, rfl⟩

/-- Claim C7: `compress_image` is deterministic — it is a pure function of
the codec implementation and the call's inputs (raw file and the four
configuration integers); two calls with identical inputs return identical
results (identical encoded bytes, dimensions, sizes, and identical encode
traces), with no dependence on anything outside the inputs. -/
theorem C7_deterministic (codec : Codec) (a b : RawFile)
    (m1 t1 q1 Q1 m2 t2 q2 Q2 : Int) (ha : a = b) (hm : m1 = m2)
    (ht : t1 = t2) (hq : q1 = q2) (hQ : Q1 = Q2) :
    compress_image codec a m1 t1 q1 Q1 = compress_image codec b m2 t2 q2 Q2 := by
  subst ha; subst hm; subst ht; subst hq; subst hQ; rfl

/-- Witness for C7 at a concrete input. -/
theorem C7_deterministic_witness :
    compress_image codecSmall imgWide 500 100 75 90
      = compress_image codecSmall imgWide 500 100 75 90 :=
  C7_deterministic codecSmall imgWide imgWide 500 100 75 90 500 100 75 90
    rfl rfl rfl rfl rfl

/-- Claim C8: the upload operation is atomic on engine failure — if the
engine call fails (decode failure, encode failure, or the Pillow
zero-division crash), `upload_image` returns an error and persists nothing:
no blob write and no metadata insert (the error outcome carries empty
effects). -/
theorem C8_atomic (codec : Codec) (file : RawFile) (m t : Int)
    (image_id : String) (e : EngineError)
    (heng : compress_image codec file m t 75 90 = .error e) :
    (∃ err, upload_image codec file m t image_id = .error err) ∧
    (uploadEffects (upload_image codec file m t image_id)).blobWrites = [] ∧
    (uploadEffects (upload_image codec file m t image_id)).dbInserts = [] := by
  unfold upload_image
  split
  · exact ⟨⟨_, rfl⟩, rfl, rfl⟩
  · split
    · exact ⟨⟨_, rfl⟩, rfl, rfl⟩
    · rw [heng]
      exact ⟨⟨_, rfl⟩, rfl, rfl⟩

/-- Witness for C8: a file of undecodable random bytes (with an accepted
`.png` name) makes the engine raise a decode failure, and the upload fails
with no blob written and no record inserted. -/
theorem C8_atomic_witness :
    (∃ err, upload_image codecSmall imgBad 500 100 "id0" = .error err) ∧
    (uploadEffects (upload_image codecSmall imgBad 500 100 "id0")).blobWrites
      = [] ∧
    (uploadEffects (upload_image codecSmall imgBad 500 100 "id0")).dbInserts
      = [] :=
  C8_atomic codecSmall imgBad 500 100 "id0" .decodeError rfl

/-- Claim C9, amended: the boundary rejects non-positive `max_dimension` or
`target_size_kb` (after the extension check) before the engine is invoked;
the engine itself performs no re-check of any kind, and `max_quality <
min_quality` is never checked anywhere (the boundary always passes the
constants 75 and 90). -/
theorem C9_amended (codec : Codec) (file : RawFile) (m t : Int)
    (image_id : String) (hext : allowed_extension file.filename = true)
    (hbad : m ≤ 0 ∨ t ≤ 0) :
    upload_image codec file m t image_id = .error .invalidParams := by
  unfold upload_image
  rw [hext]
  simp only [Bool.not_true, Bool.false_eq_true, if_false]
  exact if_pos hbad

/-- Witness for C9 amended: `max_dimension = -1` is rejected at the
boundary. -/
theorem C9_amended_witness :
    upload_image codecSmall imgBad (-1) 100 "id0" = .error .invalidParams :=
  C9_amended codecSmall imgBad (-1) 100 "id0" rfl (Or.inl (by decide))

/-- Claim C3, amended: on success `compress_image` returns the four
components of main.py line 89 — the encoded buffer, the final dimensions,
the original size in bytes (`len(content)`), and the compressed size
(`output.tell()`, the final buffer's length) — and no quality value. -/
theorem C3_amended (codec : Codec) (input : RawFile) (m t mq Mq : Int)
    (res : CompressionResult) (info : RunInfo)
    (hok : compress_image codec input m t mq Mq = .ok (res, info)) :
    res.original_size = input.content_bytes_len ∧
    res.compressed_size = res.output.size := by
  obtain ⟨img, c1, out0, out1, c5, d5, out5, q6, out6, -, -, -, -, -, -, -,
    -, -, hres⟩ := compress_image_ok_inv codec input m t mq Mq res info hok
  subst hres
  exact ⟨rfl, rfl⟩

/-- Witness for C3 amended at a concrete successful run. -/
theorem C3_amended_witness :
    (⟨⟨50000, 0⟩, 500, 250, 5000000, 50000⟩ : CompressionResult).original_size
      = imgWide.content_bytes_len ∧
    (⟨⟨50000, 0⟩, 500, 250, 5000000, 50000⟩ : CompressionResult).compressed_size
      = (⟨⟨50000, 0⟩, 500, 250, 5000000, 50000⟩ : CompressionResult).output.size :=
  C3_amended codecSmall imgWide 500 100 75 90 _
    ⟨(500, 250), (500, 250), [⟨90, 500, 250⟩], 90, 50000, 50000, none, none⟩ rfl

/-! ## Behaviour of the Step-4 loop -/

/-- Shape of a completed reduction loop: starting at `q0`, the loop performed
some number `n` of iterations, each appending one re-encode at a quality
exactly 5 below the previous one, and every iteration was entered with the
guard `quality > min_quality` holding. -/
theorem qualityLoop_shape (codec : Codec) (c : Nat) (d : Nat × Nat) (mq : Int)
    (fuel : Nat) :
    ∀ (q0 : Int) (out0 : Jpeg) (tr : List EncodeEvent) (q1 : Int) (out1 : Jpeg)
      (tr1 : List EncodeEvent),
      qualityLoop codec c d mq fuel q0 out0 tr = .ok (q1, out1, tr1) →
      ∃ n : Nat, q1 = q0 - 5 * n ∧
        tr1 = tr ++ (List.range n).map
          (fun i : Nat => EncodeEvent.mk (q0 - 5 * ((i : Int) + 1)) d.1 d.2) ∧
        ∀ i < n, mq < q0 - 5 * i := by
  induction fuel with
  | zero =>
    intro q0 out0 tr q1 out1 tr1 h
    simp only [qualityLoop, Except.ok.injEq, Prod.mk.injEq] at h
    obtain ⟨h1, -, h3⟩ := h
    exact ⟨0, by omega, by simp [h3.symm], by omega⟩
  | succ fuel ih =>
    intro q0 out0 tr q1 out1 tr1 h
    rw [qualityLoop] at h
    split at h
    case isTrue hguard =>
      split at h
      · exact Except.noConfusion h
      case h_2 out2 henc =>
        obtain ⟨n, hq, htr, hg⟩ := ih (q0 - 5) out2
          (tr ++ [⟨q0 - 5, d.1, d.2⟩]) q1 out1 tr1 h
        refine ⟨n + 1, by omega, ?_, ?_⟩
        · rw [htr, List.append_assoc]
          congr 1
          rw [List.range_succ_eq_map, List.map_cons, List.map_map,
            List.singleton_append]
          refine List.cons_eq_cons.mpr ⟨?_, ?_⟩
          · simp only [EncodeEvent.mk.injEq, and_true]
            push_cast
            ring
          · refine List.map_congr_left fun i _ => ?_
            simp only [Function.comp_apply, EncodeEvent.mk.injEq, and_true]
            push_cast
            ring
        · intro i hi
          cases i with
          | zero => simpa using hguard.2
          | succ j =>
            have := hg j (by omega)
            have hc : ((j + 1 : Nat) : Int) = (j : Int) + 1 := by push_cast; ring
            omega
    case isFalse hguard =>
      simp only [Except.ok.injEq, Prod.mk.injEq] at h
      obtain ⟨h1, -, h3⟩ := h
      exact ⟨0, by omega, by simp [h3.symm], by omega⟩

/-- The fuel passed by `compress_image` always suffices: a completed loop
ended because its guard failed, i.e. either the output fits under the
150 KiB ceiling or the quality reached `min_quality` or below. -/
theorem qualityLoop_exits (codec : Codec) (c : Nat) (d : Nat × Nat) (mq : Int)
    (fuel : Nat) :
    ∀ (q0 : Int) (out0 : Jpeg) (tr : List EncodeEvent) (q1 : Int) (out1 : Jpeg)
      (tr1 : List EncodeEvent), q0 - 5 * fuel ≤ mq →
      qualityLoop codec c d mq fuel q0 out0 tr = .ok (q1, out1, tr1) →
      ¬ (150 * 1024 < out1.size ∧ mq < q1) := by
  induction fuel with
  | zero =>
    intro q0 out0 tr q1 out1 tr1 hf h
    simp only [qualityLoop, Except.ok.injEq, Prod.mk.injEq] at h
    obtain ⟨h1, -, -⟩ := h
    intro hc
    omega
  | succ fuel ih =>
    intro q0 out0 tr q1 out1 tr1 hf h
    rw [qualityLoop] at h
    split at h
    case isTrue hguard =>
      split at h
      · exact Except.noConfusion h
      case h_2 out2 henc =>
        exact ih (q0 - 5) out2 _ q1 out1 tr1 (by omega) h
    case isFalse hguard =>
      simp only [Except.ok.injEq, Prod.mk.injEq] at h
      obtain ⟨h1, h2, -⟩ := h
      intro hc
      exact hguard ⟨h2 ▸ hc.1, h1 ▸ hc.2⟩

/-- Inversion of the Step-5 fallback: if the Step-4 output is still above
150 KiB, the current buffer was thumbnailed into the truncated 0.9-shrunk
Step-2 box and re-encoded once at `min_quality`; otherwise everything passes
through untouched and no Step-5 encode happened. -/
theorem step5run_inv (codec : Codec) (md : Int × Int) (content : Nat)
    (dims : Nat × Nat) (mq : Int) (out : Jpeg) (c5 : Nat) (d5 : Nat × Nat)
    (out5 : Jpeg) (ev5 : Option EncodeEvent)
    (h : step5run codec md content dims mq out = .ok (c5, d5, out5, ev5)) :
    (150 * 1024 < out.size →
      thumbnailSize dims.1 dims.2 (md.1 * 9 / 10).toNat (md.2 * 9 / 10).toNat
        = some d5 ∧
      codec.encode c5 d5 mq = some out5 ∧
      ev5 = some ⟨mq, d5.1, d5.2⟩) ∧
    (¬ 150 * 1024 < out.size →
      c5 = content ∧ d5 = dims ∧ out5 = out ∧ ev5 = none) := by
  unfold step5run at h
  split at h
  case isTrue hbig =>
    refine ⟨fun _ => ?_, fun hno => absurd hbig hno⟩
    dsimp only at h
    split at h
    · exact Except.noConfusion h
    case h_2 d2 hthumb =>
      split at h
      · exact Except.noConfusion h
      case h_2 out2 henc =>
        simp only [Except.ok.injEq, Prod.mk.injEq] at h
        obtain ⟨hc, hd, ho, he⟩ := h
        subst hc; subst hd; subst ho; subst he
        exact ⟨hthumb, henc, rfl⟩
  case isFalse hno =>
    refine ⟨fun hbig => absurd hbig hno, fun _ => ?_⟩
    simp only [Except.ok.injEq, Prod.mk.injEq] at h
    obtain ⟨hc, hd, ho, he⟩ := h
    exact ⟨hc.symm, hd.symm, ho.symm, he.symm⟩

/-- Inversion of the Step-6 boost: it re-encodes once at
`min(quality + 10, max_quality)` exactly when the current output is below
the target and the (stale Step-4) quality is below `max_quality`; otherwise
everything passes through and no Step-6 encode happened. -/
theorem step6run_inv (codec : Codec) (content : Nat) (dims : Nat × Nat)
    (t Mq q : Int) (out : Jpeg) (q6 : Int) (out6 : Jpeg)
    (ev6 : Option EncodeEvent)
    (h : step6run codec content dims t Mq q out = .ok (q6, out6, ev6)) :
    (((out.size : Int) < t * 1024 ∧ q < Mq) →
      q6 = min (q + 10) Mq ∧ codec.encode content dims q6 = some out6 ∧
      ev6 = some ⟨q6, dims.1, dims.2⟩) ∧
    (¬ ((out.size : Int) < t * 1024 ∧ q < Mq) →
      q6 = q ∧ out6 = out ∧ ev6 = none) := by
  unfold step6run at h
  split at h
  case isTrue hcond =>
    refine ⟨fun _ => ?_, fun hno => absurd hcond hno⟩
    dsimp only at h
    split at h
    · exact Except.noConfusion h
    case h_2 out2 henc =>
      simp only [Except.ok.injEq, Prod.mk.injEq] at h
      obtain ⟨hq, ho, he⟩ := h
      subst hq; subst ho; subst he
      exact ⟨rfl, henc, rfl⟩
  case isFalse hno =>
    refine ⟨fun hcond => absurd hcond hno, fun _ => ?_⟩
    simp only [Except.ok.injEq, Prod.mk.injEq] at h
    obtain ⟨hq, ho, he⟩ := h
    exact ⟨hq.symm, ho.symm, he.symm⟩

/-- Claim C2, amended: for every successful call with `minQuality ≤
maxQuality`, every encode's quality lies in `[minQuality - 4, maxQuality]`
(not `[minQuality, maxQuality]`: the loop may attempt up to 4 below
`minQuality` when 5 does not divide `maxQuality - minQuality`), and the
Step-4 encodes are the initial one at `maxQuality` followed by attempts each
exactly 5 less than the previous. -/
theorem C2_amended (codec : Codec) (input : RawFile) (m t mq Mq : Int)
    (res : CompressionResult) (info : RunInfo) (hq : mq ≤ Mq)
    (hok : compress_image codec input m t mq Mq = .ok (res, info)) :
    (∀ e ∈ runEncodes info, mq - 4 ≤ e.quality ∧ e.quality ≤ Mq) ∧
    (∃ n, info.step4.map EncodeEvent.quality
        = Mq :: (List.range n).map (fun i : Nat => Mq - 5 * ((i : Int) + 1))) := by
  obtain ⟨img, c1, out0, out1, c5, d5, out5, q6, out6, -, -, -, -, hloop, -,
    h5, -, h6, -⟩ := compress_image_ok_inv codec input m t mq Mq res info hok
  obtain ⟨n, hq1, htr, hg⟩ := qualityLoop_shape codec c1 info.dims3 mq _ Mq
    out0 _ info.step4Quality out1 info.step4 hloop
  have hq1low : mq - 4 ≤ info.step4Quality := by
    rcases Nat.eq_zero_or_pos n with hn | hn
    · subst hn; simp only [Nat.cast_zero] at hq1; omega
    · have := hg (n - 1) (by omega)
      omega
  have hq1up : info.step4Quality ≤ Mq := by omega
  obtain ⟨hthen5, helse5⟩ := step5run_inv codec info.targetBox c1 info.dims3
    mq out1 c5 d5 out5 info.step5 h5
  obtain ⟨hthen6, helse6⟩ := step6run_inv codec c5 d5 t Mq info.step4Quality
    out5 q6 out6 info.step6 h6
  constructor
  · intro e he
    simp only [runEncodes, List.append_assoc, List.mem_append] at he
    rcases he with he4 | he5 | he6
    · rw [htr] at he4
      simp only [List.mem_append, List.mem_singleton, List.mem_map,
        List.mem_range] at he4
      rcases he4 with rfl | ⟨i, hi, rfl⟩
      · constructor
        · show mq - 4 ≤ Mq
          omega
        · exact le_refl _
      · have := hg i hi
        constructor
        · show mq - 4 ≤ Mq - 5 * ((i : Int) + 1)
          omega
        · show Mq - 5 * ((i : Int) + 1) ≤ Mq
          omega
    · rcases ho5 : info.step5 with _ | e5
      · rw [ho5] at he5; simp at he5
      · rw [ho5] at he5
        simp only [Option.toList_some, List.mem_singleton] at he5
        subst he5
        by_cases hbig : 150 * 1024 < out1.size
        · have hev := (hthen5 hbig).2.2
          rw [ho5] at hev
          injection hev with hev
          subst hev
          constructor
          · show mq - 4 ≤ mq
            omega
          · show mq ≤ Mq
            exact hq
        · have hev := (helse5 hbig).2.2.2
          rw [ho5] at hev
          exact Option.noConfusion hev
    · rcases ho6 : info.step6 with _ | e6
      · rw [ho6] at he6; simp at he6
      · rw [ho6] at he6
        simp only [Option.toList_some, List.mem_singleton] at he6
        subst he6
        by_cases hcond : (out5.size : Int) < t * 1024 ∧ info.step4Quality < Mq
        · obtain ⟨hq6, -, hev⟩ := hthen6 hcond
          rw [ho6] at hev
          injection hev with hev
          subst hev
          constructor
          · show mq - 4 ≤ q6
            rw [hq6]
            exact le_min (by omega) (by omega)
          · show q6 ≤ Mq
            rw [hq6]
            exact min_le_right _ _
        · have hev := (helse6 hcond).2.2
          rw [ho6] at hev
          exact Option.noConfusion hev
  · refine ⟨n, ?_⟩
    rw [htr]
    simp only [List.map_append, List.map_map, List.map_cons, List.map_nil,
      List.singleton_append]
    rfl

/-- Claim C4, amended: whenever the Step-4 loop ends with the output still
above 150 KiB (and only then), Step 5 shrinks the **Step-2 target box** (not
the current buffer's dimensions) by the factor 0.9 per axis, **truncating**
(`int(dim * 0.9)`, a floor — not rounding to nearest), thumbnails the
current buffer into that box, and re-encodes exactly once at
`quality = minQuality`; the resulting dimensions are the ones returned. -/
theorem C4_amended (codec : Codec) (input : RawFile) (m t mq Mq : Int)
    (res : CompressionResult) (info : RunInfo)
    (hok : compress_image codec input m t mq Mq = .ok (res, info)) :
    (info.step5.isSome ↔ 150 * 1024 < info.step4Size) ∧
    ∀ e, info.step5 = some e →
      e.quality = mq ∧
      thumbnailSize info.dims3.1 info.dims3.2 (info.targetBox.1 * 9 / 10).toNat
        (info.targetBox.2 * 9 / 10).toNat = some (e.width, e.height) ∧
      res.finalW = e.width ∧ res.finalH = e.height := by
  obtain ⟨img, c1, out0, out1, c5, d5, out5, q6, out6, -, -, -, -, -, hsz,
    h5, -, -, hres⟩ := compress_image_ok_inv codec input m t mq Mq res info hok
  obtain ⟨hthen5, helse5⟩ := step5run_inv codec info.targetBox c1 info.dims3
    mq out1 c5 d5 out5 info.step5 h5
  rw [hsz]
  subst hres
  by_cases hbig : 150 * 1024 < out1.size
  · obtain ⟨hthumb, henc, hev⟩ := hthen5 hbig
    constructor
    · simp [hev, hbig]
    · intro e he
      rw [hev] at he
      injection he with he
      subst he
      refine ⟨rfl, ?_, rfl, rfl⟩
      simpa only [Prod.mk.eta] using hthumb
  · obtain ⟨-, -, -, hev⟩ := helse5 hbig
    constructor
    · simp [hev, hbig]
    · intro e he
      rw [hev] at he
      exact Option.noConfusion he

/-- Claim C6, amended: the Step-6 boost re-encode happens if and only if the
current encoded size is strictly below the target and the current `quality`
local is strictly below `maxQuality`, and it uses exactly
`min(quality + 10, maxQuality)`; but the quality in effect at Step 6's entry
is the Step-4 loop's final value — Step 5 does not assign the local — which,
when Step 5 ran (and `minQuality ≤ maxQuality`), is at most `minQuality` and
at least `minQuality - 4`, with equality to `minQuality` not guaranteed: the
boost encodes at `min(step4Quality + 10, maxQuality)`, not necessarily
`min(minQuality + 10, maxQuality)`. -/
theorem C6_amended (codec : Codec) (input : RawFile) (m t mq Mq : Int)
    (res : CompressionResult) (info : RunInfo) (hq : mq ≤ Mq)
    (hok : compress_image codec input m t mq Mq = .ok (res, info)) :
    (info.step6.isSome ↔
      ((info.preBoostSize : Int) < t * 1024 ∧ info.step4Quality < Mq)) ∧
    (∀ e, info.step6 = some e →
      e.quality = min (info.step4Quality + 10) Mq) ∧
    (info.step5.isSome →
      info.step4Quality ≤ mq ∧ mq - 4 ≤ info.step4Quality) := by
  obtain ⟨img, c1, out0, out1, c5, d5, out5, q6, out6, -, -, -, -, hloop, -,
    h5, hpre, h6, -⟩ := compress_image_ok_inv codec input m t mq Mq res info hok
  obtain ⟨hthen6, helse6⟩ := step6run_inv codec c5 d5 t Mq info.step4Quality
    out5 q6 out6 info.step6 h6
  refine ⟨?_, ?_, ?_⟩
  · rw [hpre]
    by_cases hcond : (out5.size : Int) < t * 1024 ∧ info.step4Quality < Mq
    · obtain ⟨-, -, hev⟩ := hthen6 hcond
      simp only [hev, Option.isSome_some]
      exact iff_of_true trivial hcond
    · obtain ⟨-, -, hev⟩ := helse6 hcond
      simp only [hev, Option.isSome_none]
      exact iff_of_false (by simp) hcond
  · intro e he
    by_cases hcond : (out5.size : Int) < t * 1024 ∧ info.step4Quality < Mq
    · obtain ⟨hq6, -, hev⟩ := hthen6 hcond
      rw [hev] at he
      injection he with he
      subst he
      show q6 = min (info.step4Quality + 10) Mq
      exact hq6
    · obtain ⟨-, -, hev⟩ := helse6 hcond
      rw [hev] at he
      exact Option.noConfusion he
  · intro h5some
    obtain ⟨hthen5, helse5⟩ := step5run_inv codec info.targetBox c1 info.dims3
      mq out1 c5 d5 out5 info.step5 h5
    by_cases hbig : 150 * 1024 < out1.size
    · have hexit := qualityLoop_exits codec c1 info.dims3 mq _ Mq out0
        [⟨Mq, info.dims3.1, info.dims3.2⟩] info.step4Quality out1 info.step4
        (by omega) hloop
      have h1 : info.step4Quality ≤ mq := by
        by_contra hcon
        exact hexit ⟨hbig, by omega⟩
      obtain ⟨n, hq1, -, hg⟩ := qualityLoop_shape codec c1 info.dims3 mq _ Mq
        out0 _ info.step4Quality out1 info.step4 hloop
      have h2 : mq - 4 ≤ info.step4Quality := by
        rcases Nat.eq_zero_or_pos n with hn | hn
        · subst hn; simp only [Nat.cast_zero] at hq1; omega
        · have := hg (n - 1) (by omega)
          omega
      exact ⟨h1, h2⟩
    · obtain ⟨-, -, -, hev⟩ := helse5 hbig
      rw [hev] at h5some
      simp at h5some

/-- Claim C10: for every successful call with `minQuality ≤ maxQuality` the
Step-4 stage performs at most `1 + ⌈(maxQuality - minQuality) / 5⌉` encodes
(the initial encode plus the loop's re-encodes — the loop terminates since
each iteration lowers the quality by 5 towards the `quality > minQuality`
guard, cf. `qualityLoop_exits`), and the whole run performs at most two more
(one in Step 5, one in Step 6). -/
theorem C10_encode_bound (codec : Codec) (input : RawFile) (m t mq Mq : Int)
    (res : CompressionResult) (info : RunInfo) (hq : mq ≤ Mq)
    (hok : compress_image codec input m t mq Mq = .ok (res, info)) :
    info.step4.length ≤ 1 + ((Mq - mq).toNat + 4) / 5 ∧
    (runEncodes info).length ≤ 1 + ((Mq - mq).toNat + 4) / 5 + 2 := by
  obtain ⟨img, c1, out0, out1, c5, d5, out5, q6, out6, -, -, -, -, hloop, -,
    h5, -, h6, -⟩ := compress_image_ok_inv codec input m t mq Mq res info hok
  obtain ⟨n, hq1, htr, hg⟩ := qualityLoop_shape codec c1 info.dims3 mq _ Mq
    out0 _ info.step4Quality out1 info.step4 hloop
  have hlen : info.step4.length = 1 + n := by
    rw [htr]
    simp only [List.length_append, List.length_singleton, List.length_map,
      List.length_range]
  have hn : n ≤ ((Mq - mq).toNat + 4) / 5 := by
    rcases Nat.eq_zero_or_pos n with h0 | h0
    · omega
    · have := hg (n - 1) (by omega)
      omega
  have l5 : info.step5.toList.length ≤ 1 := by cases info.step5 <;> simp
  have l6 : info.step6.toList.length ≤ 1 := by cases info.step6 <;> simp
  constructor
  · omega
  · simp only [runEncodes, List.length_append]
    omega

/-- Witness for C2 amended: the default-configuration run on the
always-oversized codec (encodes at 90, 85, 80, 75, then the Step-5 encode at
75). -/
theorem C2_amended_witness :
    (∀ e ∈ runEncodes ⟨(500, 250), (500, 250),
        [⟨90, 500, 250⟩, ⟨85, 500, 250⟩, ⟨80, 500, 250⟩, ⟨75, 500, 250⟩],
        75, 200000, 200000, some ⟨75, 450, 225⟩, none⟩,
      (75 : Int) - 4 ≤ e.quality ∧ e.quality ≤ 90) ∧
    (∃ n, List.map EncodeEvent.quality
        [⟨90, 500, 250⟩, ⟨85, 500, 250⟩, ⟨80, 500, 250⟩, ⟨75, 500, 250⟩]
        = 90 :: (List.range n).map (fun i : Nat => 90 - 5 * ((i : Int) + 1))) :=
  C2_amended codecBig imgWide 500 100 75 90
    ⟨⟨200000, 0⟩, 450, 225, 5000000, 200000⟩
    ⟨(500, 250), (500, 250),
      [⟨90, 500, 250⟩, ⟨85, 500, 250⟩, ⟨80, 500, 250⟩, ⟨75, 500, 250⟩],
      75, 200000, 200000, some ⟨75, 450, 225⟩, none⟩ (by decide) rfl

/-- Witness for C4 amended at the same default-configuration oversized run:
Step 5 fired (200000 > 153600) and re-encoded once at quality 75 into the
truncated box (450, 225). -/
theorem C4_amended_witness :
    ((some ⟨75, 450, 225⟩ : Option EncodeEvent).isSome ↔
      150 * 1024 < 200000) ∧
    (∀ e, (some ⟨75, 450, 225⟩ : Option EncodeEvent) = some e →
      e.quality = 75 ∧
      thumbnailSize 500 250 ((500 : Int) * 9 / 10).toNat
        ((250 : Int) * 9 / 10).toNat = some (e.width, e.height) ∧
      450 = e.width ∧ 225 = e.height) :=
  C4_amended codecBig imgWide 500 100 75 90
    ⟨⟨200000, 0⟩, 450, 225, 5000000, 200000⟩
    ⟨(500, 250), (500, 250),
      [⟨90, 500, 250⟩, ⟨85, 500, 250⟩, ⟨80, 500, 250⟩, ⟨75, 500, 250⟩],
      75, 200000, 200000, some ⟨75, 450, 225⟩, none⟩ rfl

/-- Witness for C6 amended: the `min_quality = 75`, `max_quality = 89` run
in which Step 5 fired and Step 6 boosted the stale quality 74 to
`min(74 + 10, 89) = 84`. -/
theorem C6_amended_witness :
    ((some ⟨84, 450, 225⟩ : Option EncodeEvent).isSome ↔
      (((50000 : Nat) : Int) < 100 * 1024 ∧ (74 : Int) < 89)) ∧
    (∀ e, (some ⟨84, 450, 225⟩ : Option EncodeEvent) = some e →
      e.quality = min ((74 : Int) + 10) 89) ∧
    ((some ⟨75, 450, 225⟩ : Option EncodeEvent).isSome →
      (74 : Int) ≤ 75 ∧ (75 : Int) - 4 ≤ 74) :=
  C6_amended codecShrink imgWide 500 100 75 89
    ⟨⟨50000, 0⟩, 450, 225, 5000000, 50000⟩
    ⟨(500, 250), (500, 250),
      [⟨89, 500, 250⟩, ⟨84, 500, 250⟩, ⟨79, 500, 250⟩, ⟨74, 500, 250⟩],
      74, 200000, 50000, some ⟨75, 450, 225⟩, some ⟨84, 450, 225⟩⟩
    (by decide) rfl

/-- Witness for C10 at the default-configuration oversized run: 4 Step-4
encodes (bound `1 + ⌈15/5⌉ = 4`) and 5 encodes in total (bound 6). -/
theorem C10_encode_bound_witness :
    ([⟨90, 500, 250⟩, ⟨85, 500, 250⟩, ⟨80, 500, 250⟩,
      (⟨75, 500, 250⟩ : EncodeEvent)] : List EncodeEvent).length
      ≤ 1 + (((90 : Int) - 75).toNat + 4) / 5 ∧
    (runEncodes ⟨(500, 250), (500, 250),
        [⟨90, 500, 250⟩, ⟨85, 500, 250⟩, ⟨80, 500, 250⟩, ⟨75, 500, 250⟩],
        75, 200000, 200000, some ⟨75, 450, 225⟩, none⟩).length
      ≤ 1 + (((90 : Int) - 75).toNat + 4) / 5 + 2 :=
  C10_encode_bound codecBig imgWide 500 100 75 90
    ⟨⟨200000, 0⟩, 450, 225, 5000000, 200000⟩
    ⟨(500, 250), (500, 250),
      [⟨90, 500, 250⟩, ⟨85, 500, 250⟩, ⟨80, 500, 250⟩, ⟨75, 500, 250⟩],
      75, 200000, 200000, some ⟨75, 450, 225⟩, none⟩ (by decide) rfl

/-! ## Arithmetic of Pillow's round_aspect -/

/-- The x-axis `round_aspect` lands within one divisor unit of the exact
rational value: `|round_aspect_x w h y * h - y * w| ≤ h`. -/
theorem round_aspect_x_dist (w h y : Nat) (hh : 0 < h) :
    Nat.dist (round_aspect_x w h y * h) (y * w) ≤ h := by
  simp only [round_aspect_x, Nat.dist]
  have E1 := Nat.div_add_mod' (y * w) h
  have E2 := Nat.mod_lt (y * w) hh
  have E3 := Nat.div_add_mod' (y * w + h - 1) h
  have E4 := Nat.mod_lt (y * w + h - 1) hh
  split
  · rcases Nat.eq_zero_or_pos (y * w / h) with h0 | h0
    · rw [h0] at E1 ⊢
      simp only [Nat.zero_max, one_mul]
      omega
    · rw [Nat.max_eq_left h0]
      omega
  · rcases Nat.eq_zero_or_pos ((y * w + h - 1) / h) with h0 | h0
    · rw [h0] at E3 ⊢
      simp only [Nat.zero_max, one_mul]
      omega
    · rw [Nat.max_eq_left h0]
      omega

/-- The x-axis `round_aspect` result is bounded by any `mN ≥ 1` whose box
dominates the exact value: if `y * w ≤ mN * h` then the result is `≤ mN`. -/
theorem round_aspect_x_le (w h y mN : Nat) (hh : 0 < h) (hm : 0 < mN)
    (hle : y * w ≤ mN * h) : round_aspect_x w h y ≤ mN := by
  simp only [round_aspect_x]
  have E3 := Nat.div_add_mod' (y * w + h - 1) h
  have E4 := Nat.mod_lt (y * w + h - 1) hh
  have hc : (y * w + h - 1) / h ≤ mN := by
    by_contra hcon
    push_neg at hcon
    have h1 : (mN + 1) * h ≤ (y * w + h - 1) / h * h :=
      mul_le_mul_right' (by omega) h
    have h2 : (mN + 1) * h = mN * h + h := by ring
    omega
  have hf : y * w / h ≤ (y * w + h - 1) / h :=
    Nat.div_le_div_right (by omega)
  split
  · exact max_le (le_trans hf hc) hm
  · exact max_le hc hm

/-- When the exact value `y * w / h` is a positive integer, the x-axis
`round_aspect` returns it exactly. -/
theorem round_aspect_x_exact (w h y : Nat) (hh : 0 < h) (hdvd : h ∣ y * w)
    (hpos : 0 < y * w) : round_aspect_x w h y = y * w / h := by
  obtain ⟨k, hk⟩ := hdvd
  simp only [round_aspect_x]
  have hfk : y * w / h = k := by rw [hk]; exact Nat.mul_div_cancel_left k hh
  have hck : (y * w + h - 1) / h = k := by
    rw [hk]
    have hcomm : h * k = k * h := Nat.mul_comm h k
    have heq : h * k + h - 1 = (h - 1) + k * h := by omega
    rw [heq, Nat.add_mul_div_right _ _ hh, Nat.div_eq_of_lt (by omega)]
    omega
  rw [hfk, hck, ite_self]
  have hk1 : 1 ≤ k := by
    rcases Nat.eq_zero_or_pos k with h0 | h0
    · rw [h0, Nat.mul_zero] at hk; omega
    · exact h0
  exact Nat.max_eq_left hk1

/-- The y-axis `round_aspect` lands within one divisor unit of the exact
rational value: `|round_aspect_y w h x * w - x * h| ≤ w`. -/
theorem round_aspect_y_dist (w h x : Nat) (hw : 0 < w) :
    Nat.dist (round_aspect_y w h x * w) (x * h) ≤ w := by
  simp only [round_aspect_y, Nat.dist]
  have E1 := Nat.div_add_mod' (x * h) w
  have E2 := Nat.mod_lt (x * h) hw
  have E3 := Nat.div_add_mod' (x * h + w - 1) w
  have E4 := Nat.mod_lt (x * h + w - 1) hw
  split
  case isTrue h0 =>
    rw [h0] at E1 ⊢
    simp only [Nat.zero_max, one_mul]
    omega
  case isFalse h0 =>
    have h0p : 0 < x * h / w := Nat.pos_of_ne_zero h0
    split
    · rw [Nat.max_eq_left h0p]
      omega
    · have hfc : x * h / w ≤ (x * h + w - 1) / w :=
        Nat.div_le_div_right (by omega)
      rw [Nat.max_eq_left (lt_of_lt_of_le h0p hfc)]
      omega

/-- The y-axis `round_aspect` result is bounded by any `mN ≥ 1` whose box
dominates the exact value: if `x * h ≤ mN * w` then the result is `≤ mN`. -/
theorem round_aspect_y_le (w h x mN : Nat) (hw : 0 < w) (hm : 0 < mN)
    (hle : x * h ≤ mN * w) : round_aspect_y w h x ≤ mN := by
  simp only [round_aspect_y]
  have E3 := Nat.div_add_mod' (x * h + w - 1) w
  have E4 := Nat.mod_lt (x * h + w - 1) hw
  have hc : (x * h + w - 1) / w ≤ mN := by
    by_contra hcon
    push_neg at hcon
    have h1 : (mN + 1) * w ≤ (x * h + w - 1) / w * w :=
      mul_le_mul_right' (by omega) w
    have h2 : (mN + 1) * w = mN * w + w := by ring
    omega
  have hf : x * h / w ≤ (x * h + w - 1) / w :=
    Nat.div_le_div_right (by omega)
  split
  · exact max_le (by omega) hm
  · split
    · exact max_le (le_trans hf hc) hm
    · exact max_le hc hm

/-! ## Behaviour of the thumbnail size computation -/

/-- `Image.thumbnail` is a no-op when the requested box already contains the
buffer. -/
theorem thumbnailSize_eq_of_box_le (w h bw bh : Nat) (hw : w ≤ bw)
    (hh : h ≤ bh) : thumbnailSize w h bw bh = some (w, h) := by
  unfold thumbnailSize
  rw [if_pos ⟨hw, hh⟩]

/-- `Image.thumbnail` never enlarges: a computed size is bounded by the
buffer's size on both axes. -/
theorem thumbnailSize_le (w h bw bh a b : Nat) (hw : 0 < w) (hh : 0 < h)
    (hres : thumbnailSize w h bw bh = some (a, b)) : a ≤ w ∧ b ≤ h := by
  unfold thumbnailSize at hres
  split at hres
  case isTrue hbox =>
    injection hres with hres
    injection hres with h1 h2
    omega
  case isFalse hbox =>
    split at hres
    · exact Option.noConfusion hres
    case isFalse hbh =>
      split at hres
      case isTrue hx =>
        injection hres with hres
        injection hres with h1 h2
        subst h1; subst h2
        have hbh2 : bh ≤ h := by
          by_contra hcon
          push_neg at hcon
          have hbw : bw < w := by
            by_contra hcon2
            push_neg at hcon2
            exact hbox ⟨hcon2, le_of_lt hcon⟩
          have h1 : bw * h < w * h := mul_lt_mul_of_pos_right hbw hh
          have h2 : bh * w < w * h := lt_of_le_of_lt hx h1
          have h3 : bh * w < h * w := by rw [mul_comm h w]; exact h2
          have h4 : bh < h := lt_of_mul_lt_mul_right h3 (Nat.zero_le w)
          omega
        refine ⟨?_, hbh2⟩
        refine round_aspect_x_le w h bh w hh hw ?_
        calc bh * w ≤ h * w := mul_le_mul_right' hbh2 w
        _ = w * h := mul_comm h w
      case isFalse hx =>
        injection hres with hres
        injection hres with h1 h2
        subst h1; subst h2
        push_neg at hx
        have hbw2 : bw ≤ w := by
          by_contra hcon
          push_neg at hcon
          have hbh : bh < h := by
            by_contra hcon2
            push_neg at hcon2
            exact hbox ⟨le_of_lt hcon, hcon2⟩
          have h1 : w * h < bw * h := mul_lt_mul_of_pos_right hcon hh
          have h2 : bh * w < h * w := mul_lt_mul_of_pos_right hbh hw
          have h3 : h * w = w * h := mul_comm h w
          omega
        refine ⟨hbw2, ?_⟩
        refine round_aspect_y_le w h bw h hw hh ?_
        calc bw * h ≤ w * h := mul_le_mul_right' hbw2 h
        _ = h * w := mul_comm w h

/-- Thumbnailing a buffer `(w, h)` into the Step-2 target box (one axis at
`mN < max w h`, the other the floored aspect value): the resulting longer
edge is at most `mN` — equal to `mN` exactly when the Step-2 floor division
is exact — and the result is within one rounding unit of the original
aspect ratio. -/
theorem thumbnail_target_spec (w h mN a b : Nat) (hw : 0 < w) (hh : 0 < h)
    (hm : 0 < mN) (hbig : mN < max w h)
    (hres : thumbnailSize w h (if h ≤ w then mN else mN * w / h)
      (if h ≤ w then mN * h / w else mN) = some (a, b)) :
    max a b ≤ mN ∧ Nat.dist (a * h) (b * w) ≤ min w h ∧
    (h ≤ w → w ∣ mN * h → max a b = mN) ∧
    (w < h → h ∣ mN * w → max a b = mN) := by
  rcases le_or_lt h w with hlw | hlw
  · -- landscape (Python: width >= height)
    rw [if_pos hlw, if_pos hlw] at hres
    have hmw : mN < w := by
      rw [Nat.max_eq_left hlw] at hbig
      exact hbig
    have htmax : mN * h / w ≤ mN := by
      have h1 : mN * h ≤ mN * w := mul_le_mul_left' hlw mN
      have h2 : mN * h / w ≤ mN * w / w := Nat.div_le_div_right h1
      rwa [Nat.mul_div_cancel mN hw] at h2
    unfold thumbnailSize at hres
    rw [if_neg (by rintro ⟨h1, -⟩; omega)] at hres
    rcases Nat.eq_zero_or_pos (mN * h / w) with ht0 | ht0
    · rw [if_pos ht0] at hres
      exact Option.noConfusion hres
    · rw [if_neg (by omega)] at hres
      have htw : mN * h / w * w ≤ mN * h := Nat.div_mul_le_self _ _
      rw [if_pos htw] at hres
      injection hres with hres
      injection hres with ha hb
      subst ha; subst hb
      have hale : round_aspect_x w h (mN * h / w) ≤ mN :=
        round_aspect_x_le w h (mN * h / w) mN hh hm htw
      refine ⟨max_le hale htmax, ?_, ?_, ?_⟩
      · rw [Nat.min_eq_right hlw]
        exact round_aspect_x_dist w h (mN * h / w) hh
      · intro hlw2 hdvd
        have heq : mN * h / w * w = mN * h := Nat.div_mul_cancel hdvd
        have hexact : round_aspect_x w h (mN * h / w) = mN * h / w * w / h := by
          refine round_aspect_x_exact w h (mN * h / w) hh ⟨mN, by rw [heq]; ring⟩
            (by rw [heq]; exact Nat.mul_pos hm hh)
        rw [heq, Nat.mul_div_cancel mN hh] at hexact
        rw [hexact]
        exact Nat.max_eq_left htmax
      · intro hcon
        omega
  · -- portrait (Python: width < height)
    rw [if_neg (by omega), if_neg (by omega)] at hres
    have hmh : mN < h := by
      rw [Nat.max_eq_right (le_of_lt hlw)] at hbig
      exact hbig
    have htmax : mN * w / h ≤ mN := by
      have h1 : mN * w ≤ mN * h := mul_le_mul_left' (le_of_lt hlw) mN
      have h2 : mN * w / h ≤ mN * h / h := Nat.div_le_div_right h1
      rwa [Nat.mul_div_cancel mN hh] at h2
    unfold thumbnailSize at hres
    rw [if_neg (by rintro ⟨-, h2⟩; omega)] at hres
    rw [if_neg (by omega)] at hres
    have hth : mN * w / h * h ≤ mN * w := Nat.div_mul_le_self _ _
    by_cases hx : mN * w ≤ mN * w / h * h
    · -- the Step-2 floor was exact: Pillow re-derives the x axis and the
      -- aspect ratio is reproduced exactly
      rw [if_pos hx] at hres
      injection hres with hres
      injection hres with ha hb
      subst ha; subst hb
      have heq : mN * w / h * h = mN * w := le_antisymm hth hx
      have hpos2 : 0 < mN * w := Nat.mul_pos hm hw
      have hcomm : mN * w / h * h = h * (mN * w / h) := Nat.mul_comm _ _
      have hexact : round_aspect_x w h mN = mN * w / h :=
        round_aspect_x_exact w h mN hh ⟨mN * w / h, by omega⟩ (by omega)
      rw [hexact]
      refine ⟨le_of_eq (Nat.max_eq_right htmax), ?_, ?_, ?_⟩
      · rw [heq]
        simp [Nat.dist_self]
      · intro hcon
        omega
      · intro hlw2 hdvd
        exact Nat.max_eq_right htmax
    · -- the Step-2 floor was inexact: Pillow re-derives the y axis
      rw [if_neg hx] at hres
      injection hres with hres
      injection hres with ha hb
      subst ha; subst hb
      have hble : round_aspect_y w h (mN * w / h) ≤ mN :=
        round_aspect_y_le w h (mN * w / h) mN hw hm hth
      refine ⟨max_le htmax hble, ?_, ?_, ?_⟩
      · rw [Nat.dist_comm, Nat.min_eq_left (le_of_lt hlw)]
        exact round_aspect_y_dist w h (mN * w / h) hw
      · intro hcon
        omega
      · intro hlw2 hdvd
        exact absurd (le_of_eq (Nat.div_mul_cancel hdvd).symm) hx

/-- Degenerate x-axis rounding for a zero-width buffer: both candidates are
`0`, and the `max(..., 1)` clamp makes the result `1`. -/
theorem round_aspect_x_w0 (h y : Nat) (hh : 0 < h) : round_aspect_x 0 h y = 1 := by
  simp [round_aspect_x, Nat.div_eq_of_lt (show h - 1 < h by omega)]

/-- A computed thumbnail size fits the requested box up to the `max(..., 1)`
clamp of `round_aspect`: each axis is at most the corresponding box axis or
`1`. -/
theorem thumbnailSize_le_box (w h bw bh a b : Nat) (hh : 0 < h)
    (hres : thumbnailSize w h bw bh = some (a, b)) :
    a ≤ max bw 1 ∧ b ≤ max bh 1 := by
  unfold thumbnailSize at hres
  split at hres
  case isTrue hbox =>
    injection hres with hres
    injection hres with h1 h2
    subst h1; subst h2
    exact ⟨le_trans hbox.1 (le_max_left bw 1), le_trans hbox.2 (le_max_left bh 1)⟩
  case isFalse hbox =>
    split at hres
    · exact Option.noConfusion hres
    case isFalse hbh =>
      have hbhp : 0 < bh := Nat.pos_of_ne_zero hbh
      split at hres
      case isTrue hx =>
        injection hres with hres
        injection hres with h1 h2
        subst h1; subst h2
        refine ⟨?_, le_max_left bh 1⟩
        rcases Nat.eq_zero_or_pos bw with hbw0 | hbwp
        · subst hbw0
          have hw0 : w = 0 := by
            rw [Nat.zero_mul] at hx
            rcases Nat.mul_eq_zero.mp (Nat.le_zero.mp hx) with h0 | h0
            · omega
            · exact h0
          subst hw0
          rw [round_aspect_x_w0 h bh hh]
          exact le_max_right 0 1
        · exact le_trans (round_aspect_x_le w h bh bw hh hbwp hx)
            (le_max_left bw 1)
      case isFalse hx =>
        injection hres with hres
        injection hres with h1 h2
        subst h1; subst h2
        push_neg at hx
        have hwp : 0 < w := by
          by_contra hw0
          push_neg at hw0
          have hw0e : w = 0 := by omega
          subst hw0e
          rw [Nat.mul_zero] at hx
          omega
        refine ⟨le_max_left bw 1, ?_⟩
        exact le_trans (round_aspect_y_le w h bw bh hwp hbhp (le_of_lt hx))
          (le_max_left bh 1)

/-- A computed thumbnail size has a positive height (the `max(..., 1)` clamp
or the retained positive axis guarantees it). -/
theorem thumbnailSize_snd_pos (w h bw bh a b : Nat) (hh : 0 < h)
    (hres : thumbnailSize w h bw bh = some (a, b)) : 0 < b := by
  unfold thumbnailSize at hres
  split at hres
  case isTrue hbox =>
    injection hres with hres
    injection hres with h1 h2
    omega
  case isFalse hbox =>
    split at hres
    · exact Option.noConfusion hres
    case isFalse hbh =>
      split at hres
      case isTrue hx =>
        injection hres with hres
        injection hres with h1 h2
        subst h2
        exact Nat.pos_of_ne_zero hbh
      case isFalse hx =>
        injection hres with hres
        injection hres with h1 h2
        subst h2
        simp only [round_aspect_y]
        exact Nat.lt_of_lt_of_le Nat.one_pos (le_max_right _ 1)

/-- A thumbnail into a box of height `0` never succeeds on a buffer of
positive height: success implies the box height is positive. -/
theorem thumbnailSize_some_bh_pos (w h bw bh a b : Nat) (hh : 0 < h)
    (hres : thumbnailSize w h bw bh = some (a, b)) : 0 < bh := by
  unfold thumbnailSize at hres
  split at hres
  case isTrue hbox => omega
  case isFalse hbox =>
    split at hres
    · exact Option.noConfusion hres
    case isFalse hbh => exact Nat.pos_of_ne_zero hbh

/-- The Int-valued Step-2 box components, converted to the Nat values the
thumbnail model receives: for a positive `max_dimension` both components are
the corresponding Nat floor divisions. -/
theorem target_dimensions_toNat (m : Int) (w h : Nat) (hm : 0 < m) :
    (target_dimensions m w h).1.toNat
        = (if h ≤ w then m.toNat else m.toNat * w / h) ∧
    (target_dimensions m w h).2.toNat
        = (if h ≤ w then m.toNat * h / w else m.toNat) := by
  have hmN : ((m.toNat : Nat) : Int) = m := Int.toNat_of_nonneg (le_of_lt hm)
  have hconv : ∀ k n : Nat, ((m * (k : Int)) / (n : Int)).toNat
      = m.toNat * k / n := by
    intro k n
    rw [← hmN, ← Int.natCast_mul, ← Int.natCast_div]
    exact Int.toNat_natCast _
  unfold target_dimensions
  split
  case isTrue hlw =>
    exact ⟨rfl, hconv h w⟩
  case isFalse hlw =>
    exact ⟨hconv w h, rfl⟩

/-- Claim C1, amended: for a valid decodable image whose longer edge exceeds
`maxDimension > 0`, on a successful call: when the Step-5 fallback does not
run, the final longer edge is at most `maxDimension` — equal to
`maxDimension` whenever the Step-2 floor division is exact
(`w ∣ maxDimension·h` for landscape, `h ∣ maxDimension·w` for portrait
images; exactness is sufficient but not necessary for equality — a 700x500
image at `maxDimension = 500` still reaches 500 — while without it Pillow's
`round_aspect` may also pick a slightly shorter long edge, e.g. 1000x999) —
and the final aspect ratio matches the original within one rounding unit
(`|finalW·h − finalH·w| ≤ min w h`).  When the Step-5 fallback runs, the
final longer edge is strictly below `maxDimension`: the final size fits the
truncated 0.9-shrunk box up to the `max(·,1)` clamp of `round_aspect`, and
that box's axes are at most `⌊0.9·maxDimension⌋ < maxDimension`. -/
theorem C1_amended (codec : Codec) (input : RawFile) (m t mq Mq : Int)
    (res : CompressionResult) (info : RunInfo) (img : PILImage)
    (himg : input.decoded = some img) (hw : 0 < img.width)
    (hh : 0 < img.height) (hm : 0 < m)
    (hbig : m < ((max img.width img.height : Nat) : Int))
    (hok : compress_image codec input m t mq Mq = .ok (res, info)) :
    (info.step5 = none →
      max res.finalW res.finalH ≤ m.toNat ∧
      Nat.dist (res.finalW * img.height) (res.finalH * img.width)
        ≤ min img.width img.height ∧
      (img.height ≤ img.width → img.width ∣ m.toNat * img.height →
        max res.finalW res.finalH = m.toNat) ∧
      (img.width < img.height → img.height ∣ m.toNat * img.width →
        max res.finalW res.finalH = m.toNat)) ∧
    (info.step5.isSome → max res.finalW res.finalH < m.toNat) := by
  obtain ⟨img2, c1, out0, out1, c5, d5, out5, q6, out6, hdec, hbox, hthumb,
    -, -, -, hst5, -, -, hres⟩ :=
    compress_image_ok_inv codec input m t mq Mq res info hok
  rw [himg] at hdec
  injection hdec with hdec
  subst hdec
  obtain ⟨hb1, hb2⟩ := target_dimensions_toNat m img.width img.height hm
  rw [← hbox] at hb1 hb2
  obtain ⟨hthen5, helse5⟩ := step5run_inv codec info.targetBox c1 info.dims3
    mq out1 c5 d5 out5 info.step5 hst5
  subst hres
  constructor
  · intro h5
    have hbig1 : ¬ 150 * 1024 < out1.size := by
      intro hcon
      have hev := (hthen5 hcon).2.2
      rw [h5] at hev
      exact Option.noConfusion hev
    obtain ⟨-, hd5, -, -⟩ := helse5 hbig1
    rw [hb1, hb2] at hthumb
    have hspec := thumbnail_target_spec img.width img.height m.toNat
      info.dims3.1 info.dims3.2 hw hh (by omega) (by omega)
      (by rw [← Prod.mk.eta (p := info.dims3)] at hthumb; exact hthumb)
    rw [hd5]
    exact hspec
  · intro h5some
    have hbig2 : 150 * 1024 < out1.size := by
      by_contra hno
      obtain ⟨-, -, -, hev⟩ := helse5 hno
      rw [hev] at h5some
      simp at h5some
    obtain ⟨hthumb2, -, -⟩ := hthen5 hbig2
    rw [← Prod.mk.eta (p := info.dims3)] at hthumb
    rw [← Prod.mk.eta (p := d5)] at hthumb2
    have hd32 : 0 < info.dims3.2 :=
      thumbnailSize_snd_pos img.width img.height info.targetBox.1.toNat
        info.targetBox.2.toNat info.dims3.1 info.dims3.2 hh hthumb
    have hbh2pos : 0 < (info.targetBox.2 * 9 / 10).toNat :=
      thumbnailSize_some_bh_pos info.dims3.1 info.dims3.2
        (info.targetBox.1 * 9 / 10).toNat (info.targetBox.2 * 9 / 10).toNat
        d5.1 d5.2 hd32 hthumb2
    obtain ⟨hle1, hle2⟩ := thumbnailSize_le_box info.dims3.1 info.dims3.2
      (info.targetBox.1 * 9 / 10).toNat (info.targetBox.2 * 9 / 10).toNat
      d5.1 d5.2 hd32 hthumb2
    have hT1 : info.targetBox.1.toNat ≤ m.toNat := by
      rw [hb1]
      split
      · exact le_refl _
      case isFalse hlw =>
        have h1 : m.toNat * img.width ≤ m.toNat * img.height :=
          mul_le_mul_left' (by omega) m.toNat
        have h2 : m.toNat * img.width / img.height
            ≤ m.toNat * img.height / img.height := Nat.div_le_div_right h1
        rwa [Nat.mul_div_cancel m.toNat hh] at h2
    have hT2 : info.targetBox.2.toNat ≤ m.toNat := by
      rw [hb2]
      split
      case isTrue hlw =>
        have h1 : m.toNat * img.height ≤ m.toNat * img.width :=
          mul_le_mul_left' hlw m.toNat
        have h2 : m.toNat * img.height / img.width
            ≤ m.toNat * img.width / img.width := Nat.div_le_div_right h1
        rwa [Nat.mul_div_cancel m.toNat hw] at h2
      · exact le_refl _
    have hs1 : (info.targetBox.1 * 9 / 10).toNat ≤ m.toNat * 9 / 10 := by
      omega
    have hs2 : (info.targetBox.2 * 9 / 10).toNat ≤ m.toNat * 9 / 10 := by
      omega
    show max d5.1 d5.2 < m.toNat
    omega

/-- Claim C5, amended: for a valid image with `max(w, h) ≤ maxDimension`, a
successful call never enlarges the image — the final dimensions are at most
the original on both axes — and the final dimensions equal the original
dimensions whenever the Step-5 fallback does not run.  (Step 5 can shrink
such an image when its truncated 0.9-shrunk Step-2 box falls below the
original size on some axis, see `C5_counterexample`.) -/
theorem C5_amended (codec : Codec) (input : RawFile) (m t mq Mq : Int)
    (res : CompressionResult) (info : RunInfo) (img : PILImage)
    (himg : input.decoded = some img) (hw : 0 < img.width)
    (hh : 0 < img.height)
    (hsmall : ((max img.width img.height : Nat) : Int) ≤ m)
    (hok : compress_image codec input m t mq Mq = .ok (res, info)) :
    res.finalW ≤ img.width ∧ res.finalH ≤ img.height ∧
    (info.step5 = none →
      res.finalW = img.width ∧ res.finalH = img.height) := by
  obtain ⟨img2, c1, out0, out1, c5, d5, out5, q6, out6, hdec, hbox, hthumb,
    -, -, -, hst5, -, -, hres⟩ :=
    compress_image_ok_inv codec input m t mq Mq res info hok
  rw [himg] at hdec
  injection hdec with hdec
  subst hdec
  have hm : 0 < m := lt_of_lt_of_le (by omega) hsmall
  obtain ⟨hb1, hb2⟩ := target_dimensions_toNat m img.width img.height hm
  rw [← hbox] at hb1 hb2
  have hcov1 : img.width ≤ info.targetBox.1.toNat := by
    rw [hb1]
    split
    · omega
    case isFalse hlw =>
      rw [Nat.le_div_iff_mul_le hh]
      have h1 : img.height ≤ m.toNat := by omega
      calc img.width * img.height ≤ img.width * m.toNat :=
            mul_le_mul_left' h1 img.width
        _ = m.toNat * img.width := mul_comm img.width m.toNat
  have hcov2 : img.height ≤ info.targetBox.2.toNat := by
    rw [hb2]
    split
    case isTrue hlw =>
      rw [Nat.le_div_iff_mul_le hw]
      have h1 : img.width ≤ m.toNat := by omega
      calc img.height * img.width ≤ img.height * m.toNat :=
            mul_le_mul_left' h1 img.height
        _ = m.toNat * img.height := mul_comm img.height m.toNat
    · omega
  have hdims : info.dims3 = (img.width, img.height) := by
    have hno := thumbnailSize_eq_of_box_le img.width img.height
      info.targetBox.1.toNat info.targetBox.2.toNat hcov1 hcov2
    rw [hno] at hthumb
    injection hthumb with hthumb
    exact hthumb.symm
  subst hres
  obtain ⟨hthen5, helse5⟩ := step5run_inv codec info.targetBox c1 info.dims3
    mq out1 c5 d5 out5 info.step5 hst5
  by_cases hbig : 150 * 1024 < out1.size
  · obtain ⟨hthumb2, -, hev⟩ := hthen5 hbig
    rw [hdims] at hthumb2
    have hle := thumbnailSize_le img.width img.height _ _ d5.1 d5.2 hw hh
      (by rw [← Prod.mk.eta (p := d5)] at hthumb2; exact hthumb2)
    refine ⟨hle.1, hle.2, fun h5none => ?_⟩
    rw [hev] at h5none
    exact Option.noConfusion h5none
  · obtain ⟨-, hd5, -, -⟩ := helse5 hbig
    rw [hd5, hdims]
    exact ⟨le_refl _, le_refl _, fun _ => ⟨rfl, rfl⟩⟩

/-- Witness for C1 amended: the 2000x1000 image under the default
configuration with the always-oversized codec — Step 5 runs and the final
longer edge 450 is strictly below `maxDimension = 500`. -/
theorem C1_amended_witness :
    ((some ⟨75, 450, 225⟩ : Option EncodeEvent) = none →
      max 450 225 ≤ (500 : Int).toNat ∧
      Nat.dist (450 * 1000) (225 * 2000) ≤ min 2000 1000 ∧
      (1000 ≤ 2000 → 2000 ∣ (500 : Int).toNat * 1000 →
        max 450 225 = (500 : Int).toNat) ∧
      (2000 < 1000 → 1000 ∣ (500 : Int).toNat * 2000 →
        max 450 225 = (500 : Int).toNat)) ∧
    ((some ⟨75, 450, 225⟩ : Option EncodeEvent).isSome →
      max 450 225 < (500 : Int).toNat) :=
  C1_amended codecBig imgWide 500 100 75 90
    ⟨⟨200000, 0⟩, 450, 225, 5000000, 200000⟩
    ⟨(500, 250), (500, 250),
      [⟨90, 500, 250⟩, ⟨85, 500, 250⟩, ⟨80, 500, 250⟩, ⟨75, 500, 250⟩],
      75, 200000, 200000, some ⟨75, 450, 225⟩, none⟩
    ⟨2000, 1000, true, 7⟩ rfl (by decide) (by decide) (by decide) (by decide)
    rfl

/-- Witness for C5 amended: the 300x200 image under the default
configuration with a small-output codec — no step enlarges it and, Step 5
not having run, the final dimensions are exactly (300, 200). -/
theorem C5_amended_witness :
    (300 : Nat) ≤ 300 ∧ (200 : Nat) ≤ 200 ∧
    ((none : Option EncodeEvent) = none →
      (300 : Nat) = 300 ∧ (200 : Nat) = 200) :=
  C5_amended codecSmall imgSmall 500 100 75 90
    ⟨⟨50000, 0⟩, 300, 200, 100000, 50000⟩
    ⟨(500, 333), (300, 200), [⟨90, 300, 200⟩], 90, 50000, 50000, none, none⟩
    ⟨300, 200, true, 7⟩ rfl (by decide) (by decide) (by decide) rfl
